import Mathlib

/-!
Shallow embedding of the LogixAutoBackup watcher: the tag-stability monitor
and recovery logic of src/MonitorTag_and_Execute.py, the post-trigger and
arming decisions of its main_loop, and the single-flight upload lock of
src/QueueAutoUpload.py.  Time is modelled in whole seconds; each poll of the
monitoring loop is one event carrying the wall-clock time at which the read
returns and the outcome of the read.  Sleeps determine when the next event
happens, so they are reported in the step results and the event times are
inputs of the model.
-/

namespace MonitorTag

/-- Keyword vocabulary of is_connection_or_license_error
(src/MonitorTag_and_Execute.py lines 26-34). -/
def connectionKeywords : List String :=
  ["connection", "communications", "comms", "lost connection",
   "license", "licensing", "activation", "checkout failed",
   "timeout", "failed to connect", "unable to establish",
   "rslinx", "linx", "cannotsenddata", "cannot communicate with linx"]

/-- Substring test on character lists: does pat occur contiguously in the
second list? Models the Python expression keyword in msg. -/
def charsInfix (pat : List Char) : List Char → Bool
  | [] => pat.isEmpty
  | c :: rest => pat.isPrefixOf (c :: rest) || charsInfix pat rest

/-- Embeds is_connection_or_license_error (lines 26-34): true iff the
lowercased message contains one of the connection keywords.  The Python
code lowercases str(e); here the message is lowercased character-wise. -/
def isConnectionOrLicenseError (msg : String) : Bool :=
  connectionKeywords.any (fun k => charsInfix k.toList (msg.toList.map Char.toLower))

/-- Environment oracle for fully_reset_project: whether
LogixProject.open_logix_project succeeds, and for each go_online attempt
index the error message raised (none means that attempt goes online). -/
structure ResetEnv where
  openOk : Bool
  online : Nat → Option String

inductive OnlineLoopStatus
  | success (k : Nat)
  | fatalAbort (k : Nat)
  | exhausted
deriving DecidableEq

/-- The go_online retry loop inside fully_reset_project (lines 69-79):
starting at attempt index idx with a number of remaining attempts, a
connection-classified failure sleeps 10 * (idx + 1) seconds and retries,
any other failure is re-raised (ending the loop), success returns. The
returned list collects the sleep durations taken. -/
def resetOnlineLoop (online : Nat → Option String) : Nat → Nat → OnlineLoopStatus × List Nat
  | _, 0 => (.exhausted, [])
  | idx, r + 1 =>
    match online idx with
    | none => (.success idx, [])
    | some msg =>
      if isConnectionOrLicenseError msg then
        let res := resetOnlineLoop online (idx + 1) r
        (res.1, 10 * (idx + 1) :: res.2)
      else (.fatalAbort idx, [])

/-- Result summary of one call to fully_reset_project: whether a fresh
online session was returned, how many go_online calls were made, the sleeps
taken between attempts, and how many project sessions the call opened and
closed. -/
structure ResetOutcome where
  recovered : Bool
  attemptsUsed : Nat
  delays : List Nat
  sessionsOpened : Nat
  sessionsClosed : Nat
deriving DecidableEq

/-- Embeds fully_reset_project (lines 60-90).  It opens a new project at the
given path - the function receives only the path, so the session the caller
already holds is not closed here - then tries go_online up to 5 times.  On
success the fresh session is returned live and not closed; on every failure
path the fresh session is closed before returning None. -/
def fullyResetProject (env : ResetEnv) : ResetOutcome :=
  if env.openOk then
    match resetOnlineLoop env.online 0 5 with
    | (.success k, ds) => ⟨true, k + 1, ds, 1, 0⟩
    | (.fatalAbort k, ds) => ⟨false, k + 1, ds, 1, 1⟩
    | (.exhausted, ds) => ⟨false, 5, ds, 1, 1⟩
  else ⟨false, 0, [], 0, 0⟩

/-- Number of live sessions after a call to fully_reset_project, starting
from the one session the monitoring loop already holds (which the function
never closes, and which main_loop keeps using after the
FULL_RESET_REQUIRED escape). -/
def liveSessionsAfterReset (env : ResetEnv) : Nat :=
  1 + (fullyResetProject env).sessionsOpened - (fullyResetProject env).sessionsClosed

/-- Outcome of one get_tag_value_lint poll: a value, or a raised error with
its message together with the environment a triggered reset would see. -/
inductive ReadResult
  | ok (v : Int)
  | err (msg : String) (env : ResetEnv)

/-- One iteration of the monitoring loop: the wall-clock time (seconds) at
which the read returns, and its outcome. -/
structure PollEvent where
  time : Nat
  result : ReadResult

/-- The local state of monitor_and_trigger_lint (lines 102-105):
current_last_value, current_waiting, stable_start, consecutive_errors. -/
structure MState where
  lastValue : Option Int
  waiting : Bool
  stableStart : Option Nat
  consecutiveErrors : Nat
deriving DecidableEq

/-- The state monitor_and_trigger_lint starts a run with (lines 102-105),
given the last_known_value and wait_for_change arguments. -/
def initMonitorState (lastKnown : Option Int) (waiting : Bool) : MState :=
  ⟨lastKnown, waiting, none, 0⟩

/-- Observable effect of one loop iteration: keep looping (recording
whether a full reset was attempted and how long the iteration sleeps),
return the trigger, or raise RuntimeError FULL_RESET_REQUIRED. -/
inductive StepResult
  | cont (resetAttempted : Bool) (sleep : Nat)
  | trig (v : Int)
  | resetEscape
deriving DecidableEq

/-- One iteration of the while-loop of monitor_and_trigger_lint
(lines 110-158).  On a successful read the error counter resets; a missing
baseline is seeded and the iteration continues without sleeping; a changed
value clears the waiting flag and restarts the stability window; an
unchanged value while waiting does nothing; otherwise a missing window is
started, and a running window triggers once the elapsed time reaches the
stability duration.  On a read error the counter is incremented; a
connection-classified error at counter 5 or more invokes
fully_reset_project, raising FULL_RESET_REQUIRED on success and otherwise
sleeping 60 seconds and zeroing the counter; all other error cases sleep
one poll interval. -/
def stepMonitor (stability poll : Nat) (s : MState) (e : PollEvent) : MState × StepResult :=
  match e.result with
  | .ok v =>
    match s.lastValue with
    | none => ({ s with consecutiveErrors := 0, lastValue := some v }, .cont false 0)
    | some u =>
      if v ≠ u then
        ({ s with consecutiveErrors := 0, waiting := false,
                  stableStart := some e.time, lastValue := some v }, .cont false poll)
      else if s.waiting then
        ({ s with consecutiveErrors := 0 }, .cont false poll)
      else
        match s.stableStart with
        | none => ({ s with consecutiveErrors := 0, stableStart := some e.time }, .cont false poll)
        | some t0 =>
          if stability ≤ e.time - t0 then
            ({ s with consecutiveErrors := 0 }, .trig v)
          else
            ({ s with consecutiveErrors := 0 }, .cont false poll)
  | .err msg env =>
    if isConnectionOrLicenseError msg then
      if 5 ≤ s.consecutiveErrors + 1 then
        if (fullyResetProject env).recovered then
          ({ s with consecutiveErrors := s.consecutiveErrors + 1 }, .resetEscape)
        else
          ({ s with consecutiveErrors := 0 }, .cont true 60)
      else
        ({ s with consecutiveErrors := s.consecutiveErrors + 1 }, .cont false poll)
    else
      ({ s with consecutiveErrors := s.consecutiveErrors + 1 }, .cont false poll)

/-- How one run of monitor_and_trigger_lint ends on a finite event trace:
the tuple return (True, value, True) at line 136, the FULL_RESET_REQUIRED
raise at line 148 (carrying the local state at the raise), or the trace
ran out while the loop was still polling (carrying the current state). -/
inductive MonitorOutcome
  | triggered (v : Int)
  | fullReset (s : MState)
  | outOfEvents (s : MState)
deriving DecidableEq

/-- Runs monitor_and_trigger_lint over a finite trace of poll events. -/
def runMonitor (stability poll : Nat) (s : MState) : List PollEvent → MonitorOutcome
  | [] => .outOfEvents s
  | e :: rest =>
    match stepMonitor stability poll s e with
    | (s2, .cont _ _) => runMonitor stability poll s2 rest
    | (_, .trig v) => .triggered v
    | (s2, .resetEscape) => .fullReset s2

/-- Orchestrator state relevant to the arming decision of main_loop:
last_triggered_value, waiting_for_change, FirstRun. -/
structure ArmState where
  lastTriggered : Option Int
  waiting : Bool
  firstRun : Bool
deriving DecidableEq

/-- Embeds the arming decision of main_loop after a new backup file is
opened (lines 222-238): on the first run the last triggered value is seeded
from the offline tag read; a non-null offline value equal to a non-null
last triggered value arms waiting_for_change, any other non-null value
clears both, and a failed offline read clears waiting_for_change. -/
def armDecision (st : ArmState) (offline : Option Int) : ArmState :=
  let st1 := if st.firstRun then { st with lastTriggered := offline, firstRun := false } else st
  match offline with
  | some v =>
    match st1.lastTriggered with
    | some u =>
      if v = u then { st1 with waiting := true }
      else { st1 with waiting := false, lastTriggered := none }
    | none => { st1 with waiting := false, lastTriggered := none }
  | none => { st1 with waiting := false }

/-- Orchestrator state relevant to the post-trigger branch of main_loop:
last_triggered_value, waiting_for_change, is_online. -/
structure CycleState where
  lastTriggered : Option Int
  waiting : Bool
  isOnline : Bool
deriving DecidableEq

/-- Embeds the post-trigger branch of main_loop (lines 290-301): on
external-program success the triggering value is recorded, the waiting
flag is armed and the session goes offline; on failure the waiting flag is
also set to True and the session stays as it was. -/
def handleTrigger (st : CycleState) (success : Bool) (v : Int) : CycleState :=
  if success then { st with lastTriggered := some v, waiting := true, isOnline := false }
  else { st with waiting := true }

/-- Embeds the FULL_RESET_REQUIRED recovery path of main_loop
(lines 275-288) for a run entered with waiting_for_change false: the
monitor is called with last_triggered_value and False; if it raises
FULL_RESET_REQUIRED, main_loop continues its outer loop, finds the same
file, and re-enters the monitor with the same arguments, so the second run
starts again from initMonitorState lastTriggered false. -/
def monitorWithReset (stability poll : Nat) (lastTriggered : Option Int)
    (evs1 evs2 : List PollEvent) : MonitorOutcome :=
  match runMonitor stability poll (initMonitorState lastTriggered false) evs1 with
  | .fullReset _ => runMonitor stability poll (initMonitorState lastTriggered false) evs2
  | r => r

/-- The value of a read outcome, when the read succeeded. -/
def okVal : ReadResult → Option Int
  | .ok v => some v
  | .err _ _ => none

/-- True when every event of the trace is a successful read. -/
def allOk (events : List PollEvent) : Bool :=
  events.all (fun e => (okVal e.result).isSome)

/-- True when every successful read of the trace returns the given value. -/
def readsAllEq (events : List PollEvent) (v0 : Int) : Bool :=
  events.all (fun e =>
    match okVal e.result with
    | some u => decide (u = v0)
    | none => true)

/-- The event at index k reads exactly the value v. -/
def okAt (events : List PollEvent) (k : Nat) (v : Int) : Bool :=
  match events[k]? with
  | some e => decide (okVal e.result = some v)
  | none => false

/-- The time of the event at index k (0 past the end of the trace). -/
def timeAt (events : List PollEvent) (k : Nat) : Nat :=
  match events[k]? with
  | some e => e.time
  | none => 0

/-- The last successfully read value after a trace, starting from a given
baseline: spec-side history form of the last observed value. -/
def lastValAfter (last : Option Int) : List PollEvent → Option Int
  | [] => last
  | e :: rest =>
    match okVal e.result with
    | some v => lastValAfter (some v) rest
    | none => lastValAfter last rest

/-- Whether the trace contains an observed change of value: a successful
read differing from the last observed value at that point. -/
def hasChange (last : Option Int) : List PollEvent → Bool
  | [] => false
  | e :: rest =>
    match okVal e.result, last with
    | some v, some u => decide (v ≠ u) || hasChange (some v) rest
    | some v, none => hasChange (some v) rest
    | none, _ => hasChange last rest

/-- Spec-side armed flag after the first k events: armed initially and no
change observed yet (the armed flag is cleared by the first change). -/
def armedClaimAfter (initWaiting : Bool) (initLast : Option Int)
    (events : List PollEvent) (k : Nat) : Bool :=
  initWaiting && ! hasChange initLast (events.take k)

/-- All reads with indices from i to j read exactly the value v. -/
def runAllEq (events : List PollEvent) (i j : Nat) (v : Int) : Bool :=
  (List.range (j + 1 - i)).all (fun d => okAt events (i + d) v)

/-- Claim C1 as written, following the words of the spec: there is a
contiguous run of successful reads of v, not suppressed by the armed
wait-for-change flag, spanning at least the stability duration. -/
def specTriggerClaim (stability : Nat) (initLast : Option Int) (initWaiting : Bool)
    (events : List PollEvent) (v : Int) : Bool :=
  (List.range events.length).any (fun i =>
    (List.range events.length).any (fun j =>
      decide (i ≤ j) && runAllEq events i j v &&
      decide (stability ≤ timeAt events j - timeAt events i) &&
      ! armedClaimAfter initWaiting initLast events (i + 1)))

/-- The corrected declarative trigger condition matching the code: the
qualifying run must contain at least two reads, its first read must be
preceded by an established last observed value (the seeding read does not
start the window), and the armed flag must be off once the first read of
the run is processed. -/
def specTriggerCode (stability : Nat) (initLast : Option Int) (initWaiting : Bool)
    (events : List PollEvent) (v : Int) : Bool :=
  (List.range events.length).any (fun i =>
    (List.range events.length).any (fun j =>
      decide (i < j) && runAllEq events i j v &&
      (lastValAfter initLast (events.take i)).isSome &&
      decide (stability ≤ timeAt events j - timeAt events i) &&
      ! armedClaimAfter initWaiting initLast events (i + 1)))

/-- A reset environment in which reopening succeeds and the first go_online
attempt succeeds. -/
def envRecover : ResetEnv := ⟨true, fun _ => none⟩

end MonitorTag

namespace QueueAutoUpload

/-- MAX_WAIT_TIME of src/QueueAutoUpload.py line 17. -/
def MAX_WAIT_TIME : Nat := 3600

/-- POLL_INTERVAL of src/QueueAutoUpload.py line 18. -/
def POLL_INTERVAL : Nat := 10

/-- One iteration of the acquire loop as the environment sees it: the
elapsed seconds since start_time measured after the locking attempt, and
whether the non-blocking msvcrt.locking call succeeded. -/
structure LockAttempt where
  elapsed : Nat
  succeeds : Bool
deriving DecidableEq

/-- How acquire_lock ends on a finite attempt trace: the lock was acquired
(listing the sleeps taken while waiting), the process exited with the
given status via sys.exit, or the trace ran out while still polling. -/
inductive AcquireResult
  | acquired (sleeps : List Nat)
  | exitProcess (code : Nat) (sleeps : List Nat)
  | pending
deriving DecidableEq

/-- Embeds the while-loop of acquire_lock (src/QueueAutoUpload.py
lines 28-40): try a non-blocking lock; on success return; on contention
compare the elapsed time against maxWait and exit the process with status 1
when it is exceeded, otherwise sleep one poll interval and retry. -/
def acquireLock (maxWait poll : Nat) : List LockAttempt → AcquireResult
  | [] => .pending
  | a :: rest =>
    if a.succeeds then .acquired []
    else if maxWait < a.elapsed then .exitProcess 1 []
    else
      match acquireLock maxWait poll rest with
      | .acquired s => .acquired (poll :: s)
      | .exitProcess c s => .exitProcess c (poll :: s)
      | .pending => .pending

end QueueAutoUpload

namespace QueueAutoUpload

/-- If acquire_lock returns the lock, some attempt succeeded, every earlier
attempt failed within the wait budget, and one poll-interval sleep was taken
per earlier attempt. -/
theorem acquireLock_acquired_spec (maxWait poll : Nat) :
    ∀ (atts : List LockAttempt) (s : List Nat),
      acquireLock maxWait poll atts = .acquired s →
      ∃ k a, atts[k]? = some a ∧ a.succeeds = true ∧
        (∀ i b, i < k → atts[i]? = some b → b.succeeds = false ∧ b.elapsed ≤ maxWait) ∧
        s = List.replicate k poll := by
  intro atts
  induction atts with
  | nil => intro s h; simp [acquireLock] at h
  | cons a rest ih =>
    intro s h
    cases hs : a.succeeds with
    | true =>
      simp only [acquireLock, hs, if_true] at h
      refine ⟨0, a, by simp, hs, ?_, ?_⟩
      · intro i b hi; omega
      · simp only [AcquireResult.acquired.injEq] at h
        simp [← h]
    | false =>
      by_cases he : maxWait < a.elapsed
      · simp [acquireLock, hs, he] at h
      · cases hrec : acquireLock maxWait poll rest with
        | acquired s2 =>
          have hcons : s = poll :: s2 := by
            simp only [acquireLock, hs, Bool.false_eq_true, if_false, he, hrec] at h
            simp only [AcquireResult.acquired.injEq] at h
            exact h.symm
          obtain ⟨k, b, hb, hbs, hpre, hrep⟩ := ih s2 hrec
          refine ⟨k + 1, b, by simpa using hb, hbs, ?_, by simp [hcons, hrep, List.replicate_succ]⟩
          intro i c hi hc
          cases i with
          | zero =>
            simp only [List.getElem?_cons_zero, Option.some.injEq] at hc
            exact ⟨by rw [← hc]; exact hs, by rw [← hc]; omega⟩
          | succ i2 =>
            exact hpre i2 c (by omega) (by simpa using hc)
        | exitProcess c2 s2 => simp [acquireLock, hs, he, hrec] at h
        | pending => simp [acquireLock, hs, he, hrec] at h

/-- If acquire_lock exits the process, the status is 1, the attempt that
gave up had exceeded the wait budget, every earlier attempt failed within
the budget, and one poll-interval sleep was taken per earlier attempt. -/
theorem acquireLock_exit_spec (maxWait poll : Nat) :
    ∀ (atts : List LockAttempt) (c : Nat) (s : List Nat),
      acquireLock maxWait poll atts = .exitProcess c s →
      c = 1 ∧ ∃ k a, atts[k]? = some a ∧ a.succeeds = false ∧ maxWait < a.elapsed ∧
        (∀ i b, i < k → atts[i]? = some b → b.succeeds = false ∧ b.elapsed ≤ maxWait) ∧
        s = List.replicate k poll := by
  intro atts
  induction atts with
  | nil => intro c s h; simp [acquireLock] at h
  | cons a rest ih =>
    intro c s h
    cases hs : a.succeeds with
    | true => simp [acquireLock, hs] at h
    | false =>
      by_cases he : maxWait < a.elapsed
      · simp only [acquireLock, hs, Bool.false_eq_true, if_false, if_pos he,
          AcquireResult.exitProcess.injEq] at h
        refine ⟨h.1.symm, 0, a, by simp, hs, he, ?_, by simp [← h.2]⟩
        intro i b hi; omega
      · cases hrec : acquireLock maxWait poll rest with
        | acquired s2 => simp [acquireLock, hs, he, hrec] at h
        | exitProcess c2 s2 =>
          have hcs : c2 = c ∧ s = poll :: s2 := by
            simp only [acquireLock, hs, Bool.false_eq_true, if_false, he, hrec,
              AcquireResult.exitProcess.injEq] at h
            exact ⟨h.1, h.2.symm⟩
          obtain ⟨hc1, k, b, hb, hbs, hbe, hpre, hrep⟩ := ih c2 s2 hrec
          refine ⟨by rw [← hcs.1]; exact hc1, k + 1, b, by simpa using hb, hbs, hbe, ?_,
            by simp [hcs.2, hrep, List.replicate_succ]⟩
          intro i c3 hi hc3
          cases i with
          | zero =>
            simp only [List.getElem?_cons_zero, Option.some.injEq] at hc3
            exact ⟨by rw [← hc3]; exact hs, by rw [← hc3]; omega⟩
          | succ i2 =>
            exact hpre i2 c3 (by omega) (by simpa using hc3)
        | pending => simp [acquireLock, hs, he, hrec] at h

end QueueAutoUpload

namespace MonitorTag

theorem stepMonitor_ok_seed (stability poll : Nat) (s : MState) (t : Nat) (v : Int)
    (h : s.lastValue = none) :
    stepMonitor stability poll s ⟨t, .ok v⟩ =
      ({ s with consecutiveErrors := 0, lastValue := some v }, .cont false 0) := by
  simp [stepMonitor, h]

theorem stepMonitor_ok_change (stability poll : Nat) (s : MState) (t : Nat) (v u : Int)
    (h : s.lastValue = some u) (hne : v ≠ u) :
    stepMonitor stability poll s ⟨t, .ok v⟩ =
      ({ s with consecutiveErrors := 0, waiting := false,
                stableStart := some t, lastValue := some v }, .cont false poll) := by
  simp [stepMonitor, h, hne]

theorem stepMonitor_ok_waitskip (stability poll : Nat) (s : MState) (t : Nat) (u : Int)
    (h : s.lastValue = some u) (hw : s.waiting = true) :
    stepMonitor stability poll s ⟨t, .ok u⟩ =
      ({ s with consecutiveErrors := 0 }, .cont false poll) := by
  simp [stepMonitor, h, hw]

theorem stepMonitor_ok_startWindow (stability poll : Nat) (s : MState) (t : Nat) (u : Int)
    (h : s.lastValue = some u) (hw : s.waiting = false) (hst : s.stableStart = none) :
    stepMonitor stability poll s ⟨t, .ok u⟩ =
      ({ s with consecutiveErrors := 0, stableStart := some t }, .cont false poll) := by
  simp [stepMonitor, h, hw, hst]

theorem stepMonitor_ok_trig (stability poll : Nat) (s : MState) (t : Nat) (u : Int) (t0 : Nat)
    (h : s.lastValue = some u) (hw : s.waiting = false) (hst : s.stableStart = some t0)
    (hel : stability ≤ t - t0) :
    stepMonitor stability poll s ⟨t, .ok u⟩ =
      ({ s with consecutiveErrors := 0 }, .trig u) := by
  simp [stepMonitor, h, hw, hst, hel]

theorem stepMonitor_ok_tick (stability poll : Nat) (s : MState) (t : Nat) (u : Int) (t0 : Nat)
    (h : s.lastValue = some u) (hw : s.waiting = false) (hst : s.stableStart = some t0)
    (hel : ¬ stability ≤ t - t0) :
    stepMonitor stability poll s ⟨t, .ok u⟩ =
      ({ s with consecutiveErrors := 0 }, .cont false poll) := by
  simp [stepMonitor, h, hw, hst, hel]

/-- A read error never changes the observed value, the waiting flag or the
stability window. -/
theorem stepMonitor_err_fields (stability poll : Nat) (s : MState) (t : Nat)
    (msg : String) (env : ResetEnv) :
    (stepMonitor stability poll s ⟨t, .err msg env⟩).1.waiting = s.waiting
  ∧ (stepMonitor stability poll s ⟨t, .err msg env⟩).1.lastValue = s.lastValue
  ∧ (stepMonitor stability poll s ⟨t, .err msg env⟩).1.stableStart = s.stableStart := by
  simp only [stepMonitor]
  split_ifs <;> simp

/-- A read error ends the iteration either by a FULL_RESET_REQUIRED escape
or by continuing the loop; it never returns a trigger. -/
theorem stepMonitor_err_no_trig (stability poll : Nat) (s : MState) (t : Nat)
    (msg : String) (env : ResetEnv) (v : Int) :
    (stepMonitor stability poll s ⟨t, .err msg env⟩).2 ≠ .trig v := by
  simp only [stepMonitor]
  split_ifs <;> simp

/-- While the waiting flag is armed and every successful read repeats the
last observed value, a run never triggers. -/
theorem waiting_no_trigger (stability poll : Nat) (v0 : Int) :
    ∀ (events : List PollEvent) (s : MState), s.waiting = true → s.lastValue = some v0 →
      (∀ e ∈ events, ∀ u, okVal e.result = some u → u = v0) →
      ∀ v, runMonitor stability poll s events ≠ .triggered v := by
  intro events
  induction events with
  | nil => intro s _ _ _ v h; simp [runMonitor] at h
  | cons e rest ih =>
    intro s hw hl hall v h
    obtain ⟨t, r⟩ := e
    cases r with
    | ok u =>
      have hu : u = v0 := hall ⟨t, .ok u⟩ (by simp) u (by simp [okVal])
      subst hu
      rw [runMonitor, stepMonitor_ok_waitskip stability poll s t u hl hw] at h
      exact ih { s with consecutiveErrors := 0 } hw hl
        (fun e2 he2 => hall e2 (by simp [he2])) v h
    | err msg env =>
      rw [runMonitor] at h
      rcases hsplit : stepMonitor stability poll s ⟨t, .err msg env⟩ with ⟨s2, res⟩
      have hfields := stepMonitor_err_fields stability poll s t msg env
      rw [hsplit] at h hfields
      cases res with
      | cont b sl =>
        exact ih s2 (by rw [hfields.1, hw]) (by rw [hfields.2.1, hl])
          (fun e2 he2 => hall e2 (by simp [he2])) v h
      | trig w =>
        have := stepMonitor_err_no_trig stability poll s t msg env w
        rw [hsplit] at this
        exact this rfl
      | resetEscape => simp at h

/-- Delays of the go_online retry loop grow linearly: the j-th sleep is
10 * (idx + j + 1) seconds. -/
theorem resetOnlineLoop_delays (online : Nat → Option String) :
    ∀ (r idx j : Nat), j < (resetOnlineLoop online idx r).2.length →
      (resetOnlineLoop online idx r).2[j]? = some (10 * (idx + j + 1)) := by
  intro r
  induction r with
  | zero => intro idx j hj; simp [resetOnlineLoop] at hj
  | succ n ih =>
    intro idx j hj
    cases ho : online idx with
    | none => simp [resetOnlineLoop, ho] at hj
    | some msg =>
      by_cases hc : isConnectionOrLicenseError msg
      · simp only [resetOnlineLoop, ho, hc, if_true] at hj ⊢
        cases j with
        | zero => simp
        | succ j2 =>
          simp only [List.length_cons, Nat.add_lt_add_iff_right] at hj
          have := ih (idx + 1) j2 hj
          rw [List.getElem?_cons_succ, this]
          congr 1
          omega
      · simp [resetOnlineLoop, ho, hc] at hj

/-- The go_online retry loop makes strictly fewer than idx + r attempts
past index idx before stopping with success or a fatal abort. -/
theorem resetOnlineLoop_status_lt (online : Nat → Option String) :
    ∀ (r idx k : Nat),
      ((resetOnlineLoop online idx r).1 = .success k → idx ≤ k ∧ k < idx + r)
    ∧ ((resetOnlineLoop online idx r).1 = .fatalAbort k → idx ≤ k ∧ k < idx + r) := by
  intro r
  induction r with
  | zero => intro idx k; constructor <;> intro h <;> simp [resetOnlineLoop] at h
  | succ n ih =>
    intro idx k
    cases ho : online idx with
    | none =>
      constructor <;> intro h <;> simp [resetOnlineLoop, ho] at h
      · omega
    | some msg =>
      by_cases hc : isConnectionOrLicenseError msg
      · constructor <;> intro h
        · simp only [resetOnlineLoop, ho, hc, if_true] at h
          have := ((ih (idx + 1) k).1) h
          omega
        · simp only [resetOnlineLoop, ho, hc, if_true] at h
          have := ((ih (idx + 1) k).2) h
          omega
      · refine ⟨fun h => ?_, fun h => ?_⟩
        · simp [resetOnlineLoop, ho, hc] at h
        · simp [resetOnlineLoop, ho, hc] at h
          omega

/-- fully_reset_project makes at most 5 go_online attempts. -/
theorem fullyResetProject_attempts_le (env : ResetEnv) :
    (fullyResetProject env).attemptsUsed ≤ 5 := by
  unfold fullyResetProject
  by_cases ho : env.openOk
  · simp only [ho, if_true]
    rcases hres : resetOnlineLoop env.online 0 5 with ⟨st, ds⟩
    cases st with
    | success k =>
      have := ((resetOnlineLoop_status_lt env.online 5 0 k).1) (by rw [hres])
      simp only []
      omega
    | fatalAbort k =>
      have := ((resetOnlineLoop_status_lt env.online 5 0 k).2) (by rw [hres])
      simp only []
      omega
    | exhausted => simp
  · simp [ho]

/-- The delays of fully_reset_project are 10, 20, 30, ... seconds: the j-th
sleep is 10 * (j + 1). -/
theorem fullyResetProject_delays (env : ResetEnv) :
    ∀ j, j < (fullyResetProject env).delays.length →
      (fullyResetProject env).delays[j]? = some (10 * (j + 1)) := by
  intro j hj
  unfold fullyResetProject at hj ⊢
  by_cases ho : env.openOk
  · simp only [ho, if_true] at hj ⊢
    rcases hres : resetOnlineLoop env.online 0 5 with ⟨st, ds⟩
    have hd : ∀ i, i < ds.length → ds[i]? = some (10 * (0 + i + 1)) := by
      intro i hi
      have := resetOnlineLoop_delays env.online 5 0 i (by rw [hres]; exact hi)
      rw [hres] at this
      exact this
    rw [hres] at hj
    cases st <;> simp only [] at hj ⊢ <;>
      simpa using hd j (by simpa using hj)
  · simp [ho] at hj

theorem readsAllEq_mem (events : List PollEvent) (v0 : Int)
    (h : readsAllEq events v0 = true) :
    ∀ e ∈ events, ∀ u, okVal e.result = some u → u = v0 := by
  intro e he u hu
  have h2 := (List.all_eq_true.mp h) e he
  rw [hu] at h2
  simpa using h2

end MonitorTag

open MonitorTag QueueAutoUpload

/-- Claim C3: the claim states that on external-process failure after a
trigger the orchestrator keeps the session online and leaves the
WaitingForChange flag false.  The code of the failure branch of main_loop
(lines 299-301) does keep the session online, but it sets
waiting_for_change to True - contradicting the claim and the log line of
the branch itself, which announces staying online for the next stable
period.  This theorem evaluates the branch at a failing input. -/
theorem c3_failure_path_eval :
    handleTrigger ⟨some 5, false, true⟩ false 7 = ⟨some 5, true, true⟩ := by decide

/-- Claim C4 counterexample: a read failure that is not
connection-classified (here: division by zero) is absorbed inside the
polling loop - the run continues and even reaches a trigger - instead of
propagating to the orchestrator as the claim states. -/
theorem c4_counterexample :
    isConnectionOrLicenseError "division by zero" = false
  ∧ runMonitor 1800 2 (initMonitorState none false)
      [⟨0, .err "division by zero" envRecover⟩, ⟨1, .ok 5⟩, ⟨2, .ok 5⟩, ⟨1802, .ok 5⟩]
      = .triggered 5 := by decide

/-- Claim C4 amended: an error that is not connection-classified is
absorbed by the polling loop: the iteration increments the consecutive
error counter, sleeps one poll interval, and continues; it never escapes
the loop. -/
theorem c4_amended (stability poll : Nat) (s : MState) (t : Nat) (msg : String)
    (env : ResetEnv) (h : isConnectionOrLicenseError msg = false) :
    stepMonitor stability poll s ⟨t, .err msg env⟩ =
      ({ s with consecutiveErrors := s.consecutiveErrors + 1 }, .cont false poll) := by
  simp [stepMonitor, h]

theorem c4_amended_witness :
    isConnectionOrLicenseError "division by zero" = false
  ∧ stepMonitor 1800 2 (initMonitorState none false) ⟨0, .err "division by zero" envRecover⟩
      = (⟨none, false, none, 1⟩, .cont false 2) :=
  ⟨by decide, c4_amended 1800 2 (initMonitorState none false) 0 "division by zero"
      envRecover (by decide)⟩

/-- Claim C5 counterexample: a run that observes value 7 (starting a
stability window at time 0) and then hits five consecutive transient
errors with a successful full reset escapes with local state
last value 7 and window start 0, but monitoring resumes from
initMonitorState of the last triggered value, whose last observed value
and window start differ - they are not preserved as the claim states. -/
theorem c5_counterexample :
    runMonitor 1800 2 (initMonitorState (some 5) false)
      [⟨0, .ok 7⟩, ⟨1, .err "connection lost" envRecover⟩,
       ⟨2, .err "connection lost" envRecover⟩, ⟨3, .err "connection lost" envRecover⟩,
       ⟨4, .err "connection lost" envRecover⟩, ⟨5, .err "connection lost" envRecover⟩]
      = .fullReset ⟨some 7, false, some 0, 5⟩
  ∧ (initMonitorState (some 5) false).lastValue ≠ some 7
  ∧ (initMonitorState (some 5) false).stableStart ≠ some 0 := by decide

/-- Claim C5 amended: after a successful full reset the orchestrator
re-enters the monitor with the same last_triggered_value and a fresh local
state, so monitoring resumes with the consecutive-error counter 0 but with
the stability window cleared and the last observed value reverted to the
last triggered value; the state carried at the escape is discarded. -/
theorem c5_amended (stability poll : Nat) (lt : Option Int) (evs1 evs2 : List PollEvent)
    (s : MState)
    (h : runMonitor stability poll (initMonitorState lt false) evs1 = .fullReset s) :
    monitorWithReset stability poll lt evs1 evs2 =
      runMonitor stability poll (initMonitorState lt false) evs2
  ∧ (initMonitorState lt false).consecutiveErrors = 0
  ∧ (initMonitorState lt false).stableStart = none
  ∧ (initMonitorState lt false).lastValue = lt := by
  refine ⟨?_, rfl, rfl, rfl⟩
  simp [monitorWithReset, h]

theorem c5_amended_witness :
    runMonitor 1800 2 (initMonitorState none false)
      [⟨1, .err "connection lost" envRecover⟩, ⟨2, .err "connection lost" envRecover⟩,
       ⟨3, .err "connection lost" envRecover⟩, ⟨4, .err "connection lost" envRecover⟩,
       ⟨5, .err "connection lost" envRecover⟩]
      = .fullReset ⟨none, false, none, 5⟩
  ∧ monitorWithReset 1800 2 none
      [⟨1, .err "connection lost" envRecover⟩, ⟨2, .err "connection lost" envRecover⟩,
       ⟨3, .err "connection lost" envRecover⟩, ⟨4, .err "connection lost" envRecover⟩,
       ⟨5, .err "connection lost" envRecover⟩] []
      = runMonitor 1800 2 (initMonitorState none false) [] :=
  ⟨by decide,
   (c5_amended 1800 2 none
      [⟨1, .err "connection lost" envRecover⟩, ⟨2, .err "connection lost" envRecover⟩,
       ⟨3, .err "connection lost" envRecover⟩, ⟨4, .err "connection lost" envRecover⟩,
       ⟨5, .err "connection lost" envRecover⟩] []
      ⟨none, false, none, 5⟩ (by decide)).1⟩

/-- Claim C6 counterexample: with stability 1800, a first read of 5 at
time 0 and a second read of 5 at time 1800, the claim expects a trigger
exactly one stability duration after the first read; the code instead only
starts the window at the second read and does not trigger. -/
theorem c6_counterexample :
    runMonitor 1800 2 (initMonitorState none false) [⟨0, .ok 5⟩, ⟨1800, .ok 5⟩]
      = .outOfEvents ⟨some 5, false, some 1800, 0⟩
  ∧ ∀ v, runMonitor 1800 2 (initMonitorState none false) [⟨0, .ok 5⟩, ⟨1800, .ok 5⟩]
      ≠ .triggered v := by
  refine ⟨by decide, ?_⟩
  intro v h
  rw [show runMonitor 1800 2 (initMonitorState none false) [⟨0, .ok 5⟩, ⟨1800, .ok 5⟩]
      = .outOfEvents ⟨some 5, false, some 1800, 0⟩ from by decide] at h
  simp at h

/-- Claim C6 amended: in a run entered with no last observed value, the
first successful read seeds the last observed value but does not start the
stability window (the seeding iteration also skips the poll sleep); the
window starts at the second successful read, and with no further change a
trigger fires at the first read at least one stability duration after that
second read. -/
theorem c6_amended (stability poll t0 t1 t2 : Nat) (v : Int) (h : stability ≤ t2 - t1) :
    runMonitor stability poll (initMonitorState none false)
      [⟨t0, .ok v⟩, ⟨t1, .ok v⟩, ⟨t2, .ok v⟩] = .triggered v
  ∧ (stepMonitor stability poll (initMonitorState none false) ⟨t0, .ok v⟩).2
      = .cont false 0 := by
  constructor
  · simp [runMonitor, stepMonitor, initMonitorState, h]
  · simp [stepMonitor, initMonitorState]

theorem c6_amended_witness :
    1800 ≤ 1802 - 2
  ∧ runMonitor 1800 2 (initMonitorState none false)
      [⟨0, .ok 5⟩, ⟨2, .ok 5⟩, ⟨1802, .ok 5⟩] = .triggered 5 :=
  ⟨by decide, (c6_amended 1800 2 0 2 1802 5 (by decide)).1⟩

/-- Claim C7: the claim states that every path opening a new session closes
the previous one, including the full-reset recovery path.  The docstring of
fully_reset_project announces close and re-open, but the function receives
only the file path: on a successful reset it opens a second project while
the session held by the monitoring loop stays open, closes nothing, and the
monitor then raises FULL_RESET_REQUIRED so that main_loop keeps using the
old handle - two live sessions, the fresh one leaked.  This theorem
evaluates the reset at a failing input. -/
theorem c7_reset_session_eval :
    (fullyResetProject envRecover).recovered = true
  ∧ (fullyResetProject envRecover).sessionsOpened = 1
  ∧ (fullyResetProject envRecover).sessionsClosed = 0
  ∧ liveSessionsAfterReset envRecover = 2 := by decide

/-- Claim C8: a connection-classified read failure below the threshold of 5
consecutive errors only sleeps one poll interval - a full reset is not
attempted before the counter reaches 5; at the threshold fully_reset_project
is invoked exactly once, escaping the loop on success and otherwise
sleeping 60 seconds and zeroing the counter so that polling resumes; inside
the reset, go_online attempts are bounded by 5 and the j-th delay is
10 * (j + 1) seconds (linearly increasing). -/
theorem c8_recovery_bound (stability poll : Nat) (s : MState) (t : Nat) (msg : String)
    (env : ResetEnv) (hconn : isConnectionOrLicenseError msg = true) :
    (s.consecutiveErrors + 1 < 5 →
      stepMonitor stability poll s ⟨t, .err msg env⟩ =
        ({ s with consecutiveErrors := s.consecutiveErrors + 1 }, .cont false poll))
  ∧ (5 ≤ s.consecutiveErrors + 1 → (fullyResetProject env).recovered = true →
      stepMonitor stability poll s ⟨t, .err msg env⟩ =
        ({ s with consecutiveErrors := s.consecutiveErrors + 1 }, .resetEscape))
  ∧ (5 ≤ s.consecutiveErrors + 1 → (fullyResetProject env).recovered = false →
      stepMonitor stability poll s ⟨t, .err msg env⟩ =
        ({ s with consecutiveErrors := 0 }, .cont true 60))
  ∧ (fullyResetProject env).attemptsUsed ≤ 5
  ∧ (∀ j, j < (fullyResetProject env).delays.length →
      (fullyResetProject env).delays[j]? = some (10 * (j + 1))) := by
  refine ⟨?_, ?_, ?_, fullyResetProject_attempts_le env, fullyResetProject_delays env⟩
  · intro hlt
    simp [stepMonitor, hconn, show ¬ 5 ≤ s.consecutiveErrors + 1 from by omega]
  · intro hge hrec
    simp [stepMonitor, hconn, hge, hrec]
  · intro hge hrec
    simp [stepMonitor, hconn, hge, hrec]

theorem c8_recovery_bound_witness :
    isConnectionOrLicenseError "connection lost" = true
  ∧ 0 + 1 < 5
  ∧ stepMonitor 1800 2 (initMonitorState none false) ⟨0, .err "connection lost" envRecover⟩
      = (⟨none, false, none, 1⟩, .cont false 2)
  ∧ (fullyResetProject envRecover).attemptsUsed ≤ 5 :=
  ⟨by decide, by decide,
   (c8_recovery_bound 1800 2 (initMonitorState none false) 0 "connection lost" envRecover
      (by decide)).1 (by decide),
   (c8_recovery_bound 1800 2 (initMonitorState none false) 0 "connection lost" envRecover
      (by decide)).2.2.2.1⟩

/-- Claim C9: acquire_lock makes a non-blocking attempt; on contention it
sleeps the 10-second poll interval per failed attempt and retries until the
lock is obtained or the elapsed time exceeds maxWait, at which point it
exits the process with status 1; with maxWait 0 and an already-held lock,
the first failed attempt (measured at any positive elapsed time) exits
immediately with no sleep. -/
theorem c9_lock_acquire :
    (∀ (e : Nat) (rest : List LockAttempt), 0 < e →
      acquireLock 0 POLL_INTERVAL (⟨e, false⟩ :: rest) = .exitProcess 1 [])
  ∧ (∀ (maxWait : Nat) (atts : List LockAttempt) (s : List Nat),
      acquireLock maxWait POLL_INTERVAL atts = .acquired s →
      ∃ k a, atts[k]? = some a ∧ a.succeeds = true ∧
        (∀ i b, i < k → atts[i]? = some b → b.succeeds = false ∧ b.elapsed ≤ maxWait) ∧
        s = List.replicate k POLL_INTERVAL)
  ∧ (∀ (maxWait : Nat) (atts : List LockAttempt) (c : Nat) (s : List Nat),
      acquireLock maxWait POLL_INTERVAL atts = .exitProcess c s →
      c = 1 ∧ ∃ k a, atts[k]? = some a ∧ a.succeeds = false ∧ maxWait < a.elapsed ∧
        (∀ i b, i < k → atts[i]? = some b → b.succeeds = false ∧ b.elapsed ≤ maxWait) ∧
        s = List.replicate k POLL_INTERVAL) := by
  refine ⟨?_, fun mw => acquireLock_acquired_spec mw POLL_INTERVAL,
    fun mw => acquireLock_exit_spec mw POLL_INTERVAL⟩
  intro e rest he
  simp [acquireLock, he]

theorem c9_lock_acquire_witness :
    0 < 1 ∧ acquireLock 0 POLL_INTERVAL [⟨1, false⟩] = .exitProcess 1 [] :=
  ⟨by decide, c9_lock_acquire.1 1 [] (by decide)⟩

/-- Claim C10: when the first backup file is detected after process start,
the last triggered value is seeded from the offline read; if that read
returned a non-null value the watcher is armed in WaitingForChange, and a
monitoring run entered armed on that value never triggers while every
successful read still returns the startup value. -/
theorem c10_startup_arming (lt : Option Int) (w : Bool) (v0 : Int) (stability poll : Nat)
    (events : List PollEvent) (hall : readsAllEq events v0 = true) :
    (armDecision ⟨lt, w, true⟩ (some v0)).lastTriggered = some v0
  ∧ (armDecision ⟨lt, w, true⟩ (some v0)).waiting = true
  ∧ (armDecision ⟨lt, w, true⟩ (some v0)).firstRun = false
  ∧ ∀ v, runMonitor stability poll (initMonitorState (some v0) true) events
      ≠ .triggered v := by
  refine ⟨by simp [armDecision], by simp [armDecision], by simp [armDecision], ?_⟩
  exact waiting_no_trigger stability poll v0 events (initMonitorState (some v0) true)
    rfl rfl (readsAllEq_mem events v0 hall)

theorem c10_startup_arming_witness :
    readsAllEq [⟨0, .ok 5⟩, ⟨30, .ok 5⟩] 5 = true
  ∧ (armDecision ⟨none, false, true⟩ (some 5)).waiting = true
  ∧ ∀ v, runMonitor 1800 2 (initMonitorState (some 5) true) [⟨0, .ok 5⟩, ⟨30, .ok 5⟩]
      ≠ .triggered v :=
  ⟨by decide,
   (c10_startup_arming none false 5 1800 2 [⟨0, .ok 5⟩, ⟨30, .ok 5⟩] (by decide)).2.1,
   (c10_startup_arming none false 5 1800 2 [⟨0, .ok 5⟩, ⟨30, .ok 5⟩] (by decide)).2.2.2⟩

namespace MonitorTag

theorem allOk_cons (e : PollEvent) (rest : List PollEvent) :
    allOk (e :: rest) = true ↔ (okVal e.result).isSome = true ∧ allOk rest = true := by
  simp [allOk]

theorem okAt_cons_succ (e : PollEvent) (rest : List PollEvent) (k : Nat) (v : Int) :
    okAt (e :: rest) (k + 1) v = okAt rest k v := by
  simp [okAt]

theorem okAt_zero (e : PollEvent) (rest : List PollEvent) (v : Int) :
    okAt (e :: rest) 0 v = true ↔ okVal e.result = some v := by
  simp [okAt]

theorem timeAt_cons_succ (e : PollEvent) (rest : List PollEvent) (k : Nat) :
    timeAt (e :: rest) (k + 1) = timeAt rest k := by
  simp [timeAt]

theorem timeAt_zero (e : PollEvent) (rest : List PollEvent) :
    timeAt (e :: rest) 0 = e.time := by
  simp [timeAt]

theorem lastValAfter_cons_ok (t : Nat) (u : Int) (last : Option Int) (l : List PollEvent) :
    lastValAfter last (⟨t, .ok u⟩ :: l) = lastValAfter (some u) l := by
  simp [lastValAfter, okVal]

theorem hasChange_cons_ok_none (t : Nat) (u : Int) (l : List PollEvent) :
    hasChange none (⟨t, .ok u⟩ :: l) = hasChange (some u) l := by
  simp [hasChange, okVal]

theorem hasChange_cons_ok_eq (t : Nat) (u : Int) (l : List PollEvent) :
    hasChange (some u) (⟨t, .ok u⟩ :: l) = hasChange (some u) l := by
  simp [hasChange, okVal]

theorem hasChange_cons_ok_ne (t : Nat) (u w : Int) (l : List PollEvent) (h : u ≠ w) :
    hasChange (some w) (⟨t, .ok u⟩ :: l) = true := by
  simp [hasChange, okVal, h]

theorem runMonitor_cons_cont (stability poll : Nat) (s s2 : MState) (e : PollEvent)
    (rest : List PollEvent) (b : Bool) (sl : Nat)
    (h : stepMonitor stability poll s e = (s2, .cont b sl)) :
    runMonitor stability poll s (e :: rest) = runMonitor stability poll s2 rest := by
  simp only [runMonitor, h]

theorem runMonitor_cons_trig (stability poll : Nat) (s s2 : MState) (e : PollEvent)
    (rest : List PollEvent) (v : Int)
    (h : stepMonitor stability poll s e = (s2, .trig v)) :
    runMonitor stability poll s (e :: rest) = .triggered v := by
  simp only [runMonitor, h]

theorem runMonitor_cons_escape (stability poll : Nat) (s s2 : MState) (e : PollEvent)
    (rest : List PollEvent)
    (h : stepMonitor stability poll s e = (s2, .resetEscape)) :
    runMonitor stability poll s (e :: rest) = .fullReset s2 := by
  simp only [runMonitor, h]

/-- Shifting a qualifying run of the tail one position to the right across
a successful head read. -/
theorem specLeft_shift (stability : Nat) (t : Nat) (u : Int) (rest : List PollEvent)
    (s s2 : MState) (v : Int) (hs2l : s2.lastValue = some u)
    (harm : ∀ l, (s2.waiting && ! hasChange (some u) l) = false →
       (s.waiting && ! hasChange s.lastValue (⟨t, .ok u⟩ :: l)) = false)
    (hx : ∃ i j, i < j ∧ j < rest.length ∧
       (∀ k, i ≤ k → k ≤ j → okAt rest k v = true) ∧
       (lastValAfter s2.lastValue (rest.take i)).isSome = true ∧
       stability ≤ timeAt rest j - timeAt rest i ∧
       (s2.waiting && ! hasChange s2.lastValue (rest.take (i + 1))) = false) :
    ∃ i j, i < j ∧ j < (⟨t, .ok u⟩ :: rest : List PollEvent).length ∧
       (∀ k, i ≤ k → k ≤ j → okAt (⟨t, .ok u⟩ :: rest) k v = true) ∧
       (lastValAfter s.lastValue ((⟨t, .ok u⟩ :: rest).take i)).isSome = true ∧
       stability ≤ timeAt (⟨t, .ok u⟩ :: rest) j - timeAt (⟨t, .ok u⟩ :: rest) i ∧
       (s.waiting && ! hasChange s.lastValue ((⟨t, .ok u⟩ :: rest).take (i + 1))) = false := by
  obtain ⟨i, j, hij, hjl, hread, hlast, htime, harm2⟩ := hx
  rw [hs2l] at hlast harm2
  refine ⟨i + 1, j + 1, by omega, by simp; omega, ?_, ?_, ?_, ?_⟩
  · intro k hk1 hk2
    cases k with
    | zero => omega
    | succ k2 =>
      rw [okAt_cons_succ]
      exact hread k2 (by omega) (by omega)
  · rw [List.take_succ_cons, lastValAfter_cons_ok]
    exact hlast
  · rw [timeAt_cons_succ, timeAt_cons_succ]
    exact htime
  · rw [List.take_succ_cons]
    exact harm (rest.take (i + 1)) harm2


theorem hinvOfNone (s2 : MState) (hst : s2.stableStart = none) :
    s2.stableStart ≠ none → s2.lastValue ≠ none ∧ s2.waiting = false :=
  fun hne => absurd hst hne

theorem hinvOfFields (s2 : MState) (hlv : s2.lastValue ≠ none) (hw : s2.waiting = false) :
    s2.stableStart ≠ none → s2.lastValue ≠ none ∧ s2.waiting = false :=
  fun _ => ⟨hlv, hw⟩

/-- If a run of monitor_and_trigger_lint over an error-free trace returns a
trigger, then either the trace contains a qualifying stable run in the
declarative sense (the window-opening read preceded by an established last
value, all reads up to the triggering read equal, spanning the stability
duration, unarmed), or the run was entered with a window already set and
the trigger used it. -/
theorem trig_implies_spec (stability poll : Nat) :
    ∀ (evs : List PollEvent) (s : MState) (v : Int),
      allOk evs = true →
      (s.stableStart ≠ none → s.lastValue ≠ none ∧ s.waiting = false) →
      runMonitor stability poll s evs = .triggered v →
      (∃ i j, i < j ∧ j < evs.length ∧
        (∀ k, i ≤ k → k ≤ j → okAt evs k v = true) ∧
        (lastValAfter s.lastValue (evs.take i)).isSome = true ∧
        stability ≤ timeAt evs j - timeAt evs i ∧
        (s.waiting && ! hasChange s.lastValue (evs.take (i + 1))) = false)
      ∨ (∃ t0 j, s.stableStart = some t0 ∧ s.waiting = false ∧ s.lastValue = some v ∧
          j < evs.length ∧ (∀ k, k ≤ j → okAt evs k v = true) ∧
          stability ≤ timeAt evs j - t0) := by
  intro evs
  induction evs with
  | nil =>
    intro s v _ _ h
    simp [runMonitor] at h
  | cons e rest ih =>
    intro s v hall hinv h
    obtain ⟨t, r⟩ := e
    cases r with
    | err msg env =>
      have hok := ((allOk_cons ⟨t, .err msg env⟩ rest).mp hall).1
      simp [okVal] at hok
    | ok u =>
      have hallr : allOk rest = true := ((allOk_cons ⟨t, .ok u⟩ rest).mp hall).2
      rcases Option.eq_none_or_eq_some s.lastValue with hl | ⟨w, hl⟩
      · -- seeding read: baseline recorded, no window started
        have hstn : s.stableStart = none := by
          by_contra hne
          exact (hinv hne).1 hl
        have hstep := stepMonitor_ok_seed stability poll s t u hl
        rw [runMonitor_cons_cont stability poll s _ _ rest false 0 hstep] at h
        rcases ih { s with consecutiveErrors := 0, lastValue := some u } v hallr
            (hinvOfNone _ (by simpa using hstn)) h with hleft | hright
        · refine Or.inl (specLeft_shift stability t u rest s _ v rfl ?_ hleft)
          intro l hl2
          rw [hl, hasChange_cons_ok_none]
          simpa using hl2
        · obtain ⟨t0, j, hst2, _⟩ := hright
          have h2 : s.stableStart = some t0 := hst2
          rw [hstn] at h2
          exact absurd h2 (by simp)
      · rcases eq_or_ne u w with huw | huw
        · subst huw
          rcases (Bool.eq_false_or_eq_true s.waiting).symm with hw | hw
          · -- not armed, unchanged value
            rcases Option.eq_none_or_eq_some s.stableStart with hst | ⟨t0, hst⟩
            · -- no window yet: the window starts here
              have hstep := stepMonitor_ok_startWindow stability poll s t u hl hw hst
              rw [runMonitor_cons_cont stability poll s _ _ rest false poll hstep] at h
              rcases ih { s with consecutiveErrors := 0, stableStart := some t } v hallr
                  (hinvOfFields _ (by simp [hl]) (by simpa using hw)) h with hleft | hright
              · refine Or.inl (specLeft_shift stability t u rest s _ v (by simpa using hl) ?_ hleft)
                intro l hl2
                rw [hl, hasChange_cons_ok_eq]
                simpa using hl2
              · obtain ⟨t0, j, hst2, hw2, hlv2, hjl, hread, htime⟩ := hright
                have ht0 : t0 = t := by
                  have h2 : some t = some t0 := hst2
                  exact (Option.some.inj h2).symm
                have huv : u = v := by
                  have h2 : s.lastValue = some v := hlv2
                  rw [hl] at h2
                  exact Option.some.inj h2
                refine Or.inl ⟨0, j + 1, by omega, by simp; omega, ?_, ?_, ?_, ?_⟩
                · intro k _ hk2
                  cases k with
                  | zero =>
                    rw [okAt_zero]
                    simp [okVal, huv]
                  | succ k2 =>
                    rw [okAt_cons_succ]
                    exact hread k2 (by omega)
                · simp [lastValAfter, hl]
                · rw [timeAt_cons_succ, timeAt_zero]
                  subst ht0
                  exact htime
                · rw [show ((⟨t, .ok u⟩ : PollEvent) :: rest).take (0 + 1)
                      = [⟨t, .ok u⟩] from by simp, hl, hasChange_cons_ok_eq]
                  simp [hw, hasChange]
            · rcases le_or_lt stability (t - t0) with hel | hel
              · -- the carried window triggers at the head read
                have hstep := stepMonitor_ok_trig stability poll s t u t0 hl hw hst hel
                rw [runMonitor_cons_trig stability poll s _ _ rest u hstep] at h
                have huv : u = v := by
                  injection h
                refine Or.inr ⟨t0, 0, hst, hw, by rw [hl, huv], by simp, ?_, ?_⟩
                · intro k hk
                  have hk0 : k = 0 := by omega
                  subst hk0
                  rw [okAt_zero]
                  simp [okVal, huv]
                · rw [timeAt_zero]
                  exact hel
              · -- the carried window has not elapsed yet
                have hstep := stepMonitor_ok_tick stability poll s t u t0 hl hw hst (by omega)
                rw [runMonitor_cons_cont stability poll s _ _ rest false poll hstep] at h
                rcases ih { s with consecutiveErrors := 0 } v hallr
                    (hinvOfFields _ (by simp [hl]) (by simpa using hw)) h with hleft | hright
                · refine Or.inl (specLeft_shift stability t u rest s _ v (by simpa using hl) ?_ hleft)
                  intro l hl2
                  rw [hl, hasChange_cons_ok_eq]
                  simpa using hl2
                · obtain ⟨t0x, j, hst2, hw2, hlv2, hjl, hread, htime⟩ := hright
                  have ht0 : t0x = t0 := by
                    have h2 : s.stableStart = some t0x := hst2
                    rw [hst] at h2
                    exact (Option.some.inj h2).symm
                  have hlv : s.lastValue = some v := hlv2
                  have huv : u = v := by
                    rw [hl] at hlv
                    exact Option.some.inj hlv
                  refine Or.inr ⟨t0, j + 1, hst, hw, hlv, by simp; omega, ?_, ?_⟩
                  · intro k hk
                    cases k with
                    | zero =>
                      rw [okAt_zero]
                      simp [okVal, huv]
                    | succ k2 =>
                      rw [okAt_cons_succ]
                      exact hread k2 (by omega)
                  · rw [timeAt_cons_succ]
                    subst ht0
                    exact htime
          · -- armed and unchanged: nothing happens
            have hstn : s.stableStart = none := by
              by_contra hne
              exact absurd (hinv hne).2 (by simp [hw])
            have hstep := stepMonitor_ok_waitskip stability poll s t u hl hw
            rw [runMonitor_cons_cont stability poll s _ _ rest false poll hstep] at h
            rcases ih { s with consecutiveErrors := 0 } v hallr
                (hinvOfNone _ (by simpa using hstn)) h with hleft | hright
            · refine Or.inl (specLeft_shift stability t u rest s _ v (by simpa using hl) ?_ hleft)
              intro l hl2
              rw [hl, hasChange_cons_ok_eq]
              simpa using hl2
            · obtain ⟨t0, j, hst2, _⟩ := hright
              have h2 : s.stableStart = some t0 := hst2
              rw [hstn] at h2
              exact absurd h2 (by simp)
        · -- change detected: waiting cleared, window restarted here
          have hstep := stepMonitor_ok_change stability poll s t u w hl huw
          rw [runMonitor_cons_cont stability poll s _ _ rest false poll hstep] at h
          rcases ih { s with consecutiveErrors := 0, waiting := false, stableStart := some t, lastValue := some u } v hallr
              (hinvOfFields _ (by simp) rfl) h with hleft | hright
          · refine Or.inl (specLeft_shift stability t u rest s _ v rfl ?_ hleft)
            intro l _
            rw [hl, hasChange_cons_ok_ne t u w l huw]
            simp
          · obtain ⟨t0, j, hst2, hw2, hlv2, hjl, hread, htime⟩ := hright
            have ht0 : t0 = t := by
              have h2 : some t = some t0 := hst2
              exact (Option.some.inj h2).symm
            have huv : u = v := by
              have h2 : some u = some v := hlv2
              exact Option.some.inj h2
            refine Or.inl ⟨0, j + 1, by omega, by simp; omega, ?_, ?_, ?_, ?_⟩
            · intro k _ hk2
              cases k with
              | zero =>
                rw [okAt_zero]
                simp [okVal, huv]
              | succ k2 =>
                rw [okAt_cons_succ]
                exact hread k2 (by omega)
            · simp [lastValAfter, hl]
            · rw [timeAt_cons_succ, timeAt_zero]
              subst ht0
              exact htime
            · rw [show ((⟨t, .ok u⟩ : PollEvent) :: rest).take (0 + 1)
                  = [⟨t, .ok u⟩] from by simp, hl, hasChange_cons_ok_ne t u w _ huw]
              simp

/-- A state with an unarmed waiting flag, a last value equal to every
upcoming read, and a running window forces a trigger no later than the
first read at least one stability duration past the window start. -/
theorem window_forces_trigger (stability poll : Nat) (v : Int) (t0 : Nat) :
    ∀ (evs : List PollEvent) (s : MState) (j : Nat),
      s.lastValue = some v → s.waiting = false → s.stableStart = some t0 →
      j < evs.length → (∀ k, k ≤ j → okAt evs k v = true) →
      stability ≤ timeAt evs j - t0 →
      ∃ w, runMonitor stability poll s evs = .triggered w := by
  intro evs
  induction evs with
  | nil =>
    intro s j _ _ _ hj _ _
    simp at hj
  | cons e rest ih =>
    intro s j hl hw hst hj hread htime
    obtain ⟨t, r⟩ := e
    have hr0 : okVal r = some v := by
      have := hread 0 (by omega)
      rw [okAt_zero] at this
      exact this
    cases r with
    | err msg env => simp [okVal] at hr0
    | ok u =>
      have huv : u = v := by
        simp [okVal] at hr0
        exact hr0
      subst huv
      rcases le_or_lt stability (t - t0) with hel | hel
      · exact ⟨u, runMonitor_cons_trig stability poll s _ _ rest u
          (stepMonitor_ok_trig stability poll s t u t0 hl hw hst hel)⟩
      · have hstep := stepMonitor_ok_tick stability poll s t u t0 hl hw hst (by omega)
        rw [runMonitor_cons_cont stability poll s _ _ rest false poll hstep]
        cases j with
        | zero =>
          have htime2 : stability ≤ t - t0 := by
            rw [timeAt_zero] at htime
            exact htime
          omega
        | succ j2 =>
          refine ih { s with consecutiveErrors := 0 } j2 (by simpa using hl)
            (by simpa using hw) (by simpa using hst) (by simpa using hj) ?_ ?_
          · intro k hk
            have := hread (k + 1) (by omega)
            rw [okAt_cons_succ] at this
            exact this
          · rw [timeAt_cons_succ] at htime
            exact htime

/-- If the trace contains a qualifying stable run in the declarative
sense, an error-free monotone-time run of monitor_and_trigger_lint
triggers. -/
theorem spec_implies_trig (stability poll : Nat) :
    ∀ (evs : List PollEvent) (s : MState) (i j : Nat) (v : Int),
      allOk evs = true →
      List.Pairwise (fun a b => a.time ≤ b.time) evs →
      (∀ t0, s.stableStart = some t0 → ∀ x ∈ evs, t0 ≤ x.time) →
      i < j → j < evs.length →
      (∀ k, i ≤ k → k ≤ j → okAt evs k v = true) →
      (lastValAfter s.lastValue (evs.take i)).isSome = true →
      stability ≤ timeAt evs j - timeAt evs i →
      (s.waiting && ! hasChange s.lastValue (evs.take (i + 1))) = false →
      ∃ w, runMonitor stability poll s evs = .triggered w := by
  intro evs
  induction evs with
  | nil =>
    intro s i j v _ _ _ _ hj _ _ _ _
    simp at hj
  | cons e rest ih =>
    intro s i j v hall hpair hwb hij hj hread hlast htime harm
    obtain ⟨t, r⟩ := e
    cases r with
    | err msg env =>
      have hok := ((allOk_cons ⟨t, .err msg env⟩ rest).mp hall).1
      simp [okVal] at hok
    | ok u =>
      have hallr : allOk rest = true := ((allOk_cons ⟨t, .ok u⟩ rest).mp hall).2
      have hpairr : List.Pairwise (fun a b => a.time ≤ b.time) rest :=
        (List.pairwise_cons.mp hpair).2
      have hheadle : ∀ x ∈ rest, t ≤ x.time := by
        intro x hx
        exact (List.pairwise_cons.mp hpair).1 x hx
      cases i with
      | succ i2 =>
        -- the qualifying run lies inside the tail: step once and recurse
        cases j with
        | zero => omega
        | succ j2 =>
          have hreadr : ∀ k, i2 ≤ k → k ≤ j2 → okAt rest k v = true := by
            intro k hk1 hk2
            have := hread (k + 1) (by omega) (by omega)
            rw [okAt_cons_succ] at this
            exact this
          have hlastr : ∀ s2 : MState, s2.lastValue = some u →
              (lastValAfter s2.lastValue (rest.take i2)).isSome = true := by
            intro s2 hs2
            rw [List.take_succ_cons, lastValAfter_cons_ok] at hlast
            rw [hs2]
            exact hlast
          have htimer : stability ≤ timeAt rest j2 - timeAt rest i2 := by
            rw [timeAt_cons_succ, timeAt_cons_succ] at htime
            exact htime
          rcases Option.eq_none_or_eq_some s.lastValue with hl | ⟨w, hl⟩
          · -- seeding step
            have hstep := stepMonitor_ok_seed stability poll s t u hl
            rw [runMonitor_cons_cont stability poll s _ _ rest false 0 hstep]
            refine ih { s with consecutiveErrors := 0, lastValue := some u } i2 j2 v hallr hpairr
              ?_ (by omega) (by simpa using hj) hreadr (hlastr _ rfl) htimer ?_
            · intro t0 h2
              have h3 : s.stableStart = some t0 := h2
              intro x hx
              exact hwb t0 h3 x (by simp [hx])
            · rw [List.take_succ_cons, hl, hasChange_cons_ok_none] at harm
              simpa using harm
          · rcases eq_or_ne u w with huw | huw
            · subst huw
              rcases (Bool.eq_false_or_eq_true s.waiting).symm with hw | hw
              · rcases Option.eq_none_or_eq_some s.stableStart with hst | ⟨t0, hst⟩
                · -- window starts at the head read
                  have hstep := stepMonitor_ok_startWindow stability poll s t u hl hw hst
                  rw [runMonitor_cons_cont stability poll s _ _ rest false poll hstep]
                  refine ih { s with consecutiveErrors := 0, stableStart := some t } i2 j2 v hallr
                    hpairr ?_ (by omega) (by simpa using hj) hreadr (hlastr _ (by simpa using hl))
                    htimer ?_
                  · intro t0 h2
                    have h3 : some t = some t0 := h2
                    rw [← Option.some.inj h3]
                    exact hheadle
                  · rw [List.take_succ_cons, hl, hasChange_cons_ok_eq] at harm
                    simpa [hl] using harm
                · -- window already running, head read just ticks (or triggers)
                  rcases le_or_lt stability (t - t0) with hel | hel
                  · exact ⟨u, runMonitor_cons_trig stability poll s _ _ rest u
                      (stepMonitor_ok_trig stability poll s t u t0 hl hw hst hel)⟩
                  · have hstep := stepMonitor_ok_tick stability poll s t u t0 hl hw hst (by omega)
                    rw [runMonitor_cons_cont stability poll s _ _ rest false poll hstep]
                    refine ih { s with consecutiveErrors := 0 } i2 j2 v hallr hpairr ?_ (by omega)
                      (by simpa using hj) hreadr (hlastr _ (by simpa using hl)) htimer ?_
                    · intro t0x h2
                      have h3 : s.stableStart = some t0x := h2
                      intro x hx
                      exact hwb t0x h3 x (by simp [hx])
                    · rw [List.take_succ_cons, hl, hasChange_cons_ok_eq] at harm
                      simpa [hl] using harm
              · -- armed and unchanged: head read is skipped
                have hstep := stepMonitor_ok_waitskip stability poll s t u hl hw
                rw [runMonitor_cons_cont stability poll s _ _ rest false poll hstep]
                refine ih { s with consecutiveErrors := 0 } i2 j2 v hallr hpairr ?_ (by omega)
                  (by simpa using hj) hreadr (hlastr _ (by simpa using hl)) htimer ?_
                · intro t0 h2
                  have h3 : s.stableStart = some t0 := h2
                  intro x hx
                  exact hwb t0 h3 x (by simp [hx])
                · rw [List.take_succ_cons, hl, hasChange_cons_ok_eq] at harm
                  simpa [hl] using harm
            · -- change at the head read
              have hstep := stepMonitor_ok_change stability poll s t u w hl huw
              rw [runMonitor_cons_cont stability poll s _ _ rest false poll hstep]
              refine ih { s with consecutiveErrors := 0, waiting := false, stableStart := some t, lastValue := some u } i2 j2 v hallr hpairr ?_ (by omega) (by simpa using hj) hreadr (hlastr _ rfl) htimer (by simp)
              intro t0 h2
              have h3 : some t = some t0 := h2
              rw [← Option.some.inj h3]
              exact hheadle
      | zero =>
        -- the head read opens the qualifying run
        have hu : okVal (ReadResult.ok u) = some v := by
          have := hread 0 (by omega) (by omega)
          rw [okAt_zero] at this
          exact this
        have huv : u = v := by
          simp [okVal] at hu
          exact hu
        subst huv
        obtain ⟨w, hl⟩ : ∃ w, s.lastValue = some w := by
          rw [List.take_zero] at hlast
          rcases Option.eq_none_or_eq_some s.lastValue with hl | ⟨w, hl⟩
          · rw [hl] at hlast
            simp [lastValAfter] at hlast
          · exact ⟨w, hl⟩
        cases j with
        | zero => omega
        | succ j2 =>
          have hreadr : ∀ k, k ≤ j2 → okAt rest k u = true := by
            intro k hk
            have := hread (k + 1) (by omega) (by omega)
            rw [okAt_cons_succ] at this
            exact this
          have htimer : stability ≤ timeAt rest j2 - t := by
            rw [timeAt_cons_succ, timeAt_zero] at htime
            exact htime
          rcases eq_or_ne u w with huw | huw
          · subst huw
            have hwfalse : s.waiting = false := by
              rw [show ((⟨t, .ok u⟩ : PollEvent) :: rest).take (0 + 1)
                  = [⟨t, .ok u⟩] from by simp, hl, hasChange_cons_ok_eq] at harm
              simpa [hasChange] using harm
            rcases Option.eq_none_or_eq_some s.stableStart with hst | ⟨t0, hst⟩
            · -- window opens here
              have hstep := stepMonitor_ok_startWindow stability poll s t u hl hwfalse hst
              rw [runMonitor_cons_cont stability poll s _ _ rest false poll hstep]
              exact window_forces_trigger stability poll u t rest _ j2 (by simpa using hl)
                (by simpa using hwfalse) (by simp) (by simpa using hj) hreadr htimer
            · -- an older window is already running and started no later
              rcases le_or_lt stability (t - t0) with hel | hel
              · exact ⟨u, runMonitor_cons_trig stability poll s _ _ rest u
                  (stepMonitor_ok_trig stability poll s t u t0 hl hwfalse hst hel)⟩
              · have hstep := stepMonitor_ok_tick stability poll s t u t0 hl hwfalse hst (by omega)
                rw [runMonitor_cons_cont stability poll s _ _ rest false poll hstep]
                have ht0le : t0 ≤ t := hwb t0 hst ⟨t, .ok u⟩ (by simp)
                refine window_forces_trigger stability poll u t0 rest _ j2 (by simpa using hl)
                  (by simpa using hwfalse) (by simpa using hst) (by simpa using hj) hreadr ?_
                omega
          · -- the head read is itself a change: window restarts here
            have hstep := stepMonitor_ok_change stability poll s t u w hl huw
            rw [runMonitor_cons_cont stability poll s _ _ rest false poll hstep]
            exact window_forces_trigger stability poll u t rest _ j2 rfl rfl rfl
              (by simpa using hj) hreadr htimer

end MonitorTag

namespace MonitorTag

theorem runAllEq_iff (events : List PollEvent) (i j : Nat) (v : Int) :
    runAllEq events i j v = true ↔ ∀ k, i ≤ k → k ≤ j → okAt events k v = true := by
  simp only [runAllEq, List.all_eq_true, List.mem_range]
  constructor
  · intro h k hk1 hk2
    have h2 := h (k - i) (by omega)
    have hik : i + (k - i) = k := by omega
    rwa [hik] at h2
  · intro h d hd
    exact h (i + d) (by omega) (by omega)

theorem specTriggerCode_iff (stability : Nat) (initLast : Option Int) (initWaiting : Bool)
    (events : List PollEvent) (v : Int) :
    specTriggerCode stability initLast initWaiting events v = true ↔
      ∃ i j, i < j ∧ j < events.length ∧
        (∀ k, i ≤ k → k ≤ j → okAt events k v = true) ∧
        (lastValAfter initLast (events.take i)).isSome = true ∧
        stability ≤ timeAt events j - timeAt events i ∧
        (initWaiting && ! hasChange initLast (events.take (i + 1))) = false := by
  simp only [specTriggerCode, List.any_eq_true, List.mem_range, Bool.and_eq_true,
    decide_eq_true_eq, runAllEq_iff, armedClaimAfter, Bool.not_eq_true']
  constructor
  · rintro ⟨i, hi, j, hj, ⟨⟨⟨⟨hij, hrun⟩, hlast⟩, htime⟩, harm⟩⟩
    exact ⟨i, j, hij, hj, hrun, hlast, htime, harm⟩
  · rintro ⟨i, j, hij, hj, hrun, hlast, htime, harm⟩
    exact ⟨i, by omega, j, hj, ⟨⟨⟨⟨hij, hrun⟩, hlast⟩, htime⟩, harm⟩⟩

end MonitorTag

/-- Claim C1 counterexample: on the trace that reads 5 at time 0 and 5 at
time 1800 (stability 1800, no baseline, unarmed), the spec-side predicate
of the claim holds - a contiguous unsuppressed run of equal successful
reads spanning the stability duration - yet the code does not return a
trigger, because the seeding read does not start the window. -/
theorem c1_counterexample :
    specTriggerClaim 1800 none false [⟨0, .ok 5⟩, ⟨1800, .ok 5⟩] 5 = true
  ∧ ∀ v, runMonitor 1800 2 (initMonitorState none false) [⟨0, .ok 5⟩, ⟨1800, .ok 5⟩]
      ≠ .triggered v := by
  refine ⟨by decide, ?_⟩
  intro v h
  rw [show runMonitor 1800 2 (initMonitorState none false) [⟨0, .ok 5⟩, ⟨1800, .ok 5⟩]
      = .outOfEvents ⟨some 5, false, some 1800, 0⟩ from by decide] at h
  simp at h

/-- Claim C1 amended: over traces of successful reads with nondecreasing
timestamps, the run returns Triggered with value v only if the trace has a
qualifying stable run for v - at least two reads, all equal to v, the first
of them preceded by an established last observed value (the seeding read
does not start the window), spanning at least the stability duration, with
the armed flag off once the first read of the run is processed - and
conversely, whenever such a qualifying run exists for some value, the run
returns Triggered with some value.  Any observed change restarts the
window, reflected in the equal-run requirement. -/
theorem c1_amended (stability poll : Nat) (initLast : Option Int) (initWaiting : Bool)
    (events : List PollEvent)
    (hok : allOk events = true)
    (hmono : List.Pairwise (fun a b => a.time ≤ b.time) events) :
    (∀ v, runMonitor stability poll (initMonitorState initLast initWaiting) events
        = .triggered v →
      specTriggerCode stability initLast initWaiting events v = true)
  ∧ (∀ v, specTriggerCode stability initLast initWaiting events v = true →
      ∃ w, runMonitor stability poll (initMonitorState initLast initWaiting) events
        = .triggered w) := by
  constructor
  · intro v h
    rcases trig_implies_spec stability poll events (initMonitorState initLast initWaiting) v hok
        (hinvOfNone _ rfl) h with hleft | hright
    · rw [specTriggerCode_iff]
      exact hleft
    · obtain ⟨t0, j, hst, _⟩ := hright
      exact absurd hst (by simp [initMonitorState])
  · intro v h
    rw [specTriggerCode_iff] at h
    obtain ⟨i, j, hij, hj, hread, hlast, htime, harm⟩ := h
    exact spec_implies_trig stability poll events (initMonitorState initLast initWaiting) i j v
      hok hmono (fun t0 h2 => absurd h2 (by simp [initMonitorState])) hij hj hread hlast
      htime harm

theorem c1_amended_witness :
    allOk [⟨0, .ok 5⟩, ⟨2, .ok 5⟩, ⟨1802, .ok 5⟩] = true
  ∧ ∃ w, runMonitor 1800 2 (initMonitorState none false)
      [⟨0, .ok 5⟩, ⟨2, .ok 5⟩, ⟨1802, .ok 5⟩] = .triggered w :=
  ⟨by decide,
   (c1_amended 1800 2 none false [⟨0, .ok 5⟩, ⟨2, .ok 5⟩, ⟨1802, .ok 5⟩] (by decide)
      (by decide)).2 5 (by decide)⟩
